import Mathlib

/-!
Verification development for `delta/utils/loss/loss_utils.py`.

The file defines a shallow embedding of the five loss functions
(`cross_entropy`, `ctc_lambda_loss`, `crf_log_likelihood`,
`mask_sequence_loss`, `arcface_loss`).  The host framework's operators
(`tf.losses.softmax_cross_entropy`, `tf.nn.ctc_loss_v2`,
`tf.contrib.crf.crf_log_likelihood`, `tf.contrib.seq2seq.sequence_loss`)
are external to the repository and are modelled as function parameters:
the embedded functions reproduce exactly the glue the Python code wraps
around them.  `arcface_loss` is the one function with its own arithmetic;
it is embedded as elementwise real arithmetic over `Fin`-indexed matrices,
generic in the scalar field with the square-root / cosine / sine of the
numeric library passed as parameters, and instantiated at `ℝ` with
`Real.sqrt`, `Real.cos`, `Real.sin` in the theorems.
-/

namespace LossUtils

/-- A dense tensor: a shape (list of dimension sizes) together with the
flattened numeric data.  Rank-relevant behaviour (`tf.rank`, `tf.squeeze`,
`tf.one_hot`, `tf.shape(x)[-1]`) only inspects `shape`. -/
structure Tensor where
  shape : List ℕ
  data : List ℚ
deriving DecidableEq, Repr

/-- A boolean tensor, as produced by `tf.sequence_mask` / `len_to_mask`. -/
structure BTensor where
  shape : List ℕ
  data : List Bool
deriving DecidableEq, Repr

/-- `tf.rank`: the number of dimensions. -/
def Tensor.rank (t : Tensor) : ℕ := t.shape.length

/-- `tf.shape(x)[-1]`: the last dimension size. -/
def Tensor.lastDim (t : Tensor) : ℕ := t.shape.getLastD 0

/-- `tf.squeeze` with no axis argument: drop every dimension of size 1. -/
def Tensor.squeeze (t : Tensor) : Tensor :=
  ⟨t.shape.filter (fun d => d ≠ 1), t.data⟩

/-- `tf.ones_like`: a tensor of ones with the shape of the argument. -/
def ones_like (t : Tensor) : Tensor :=
  ⟨t.shape, t.data.map (fun _ => 1)⟩

/-- `tf.one_hot(labels, depth)`: appends a dimension of size `depth`; each
entry `v` of `labels` becomes the indicator row `[v = 0, …, v = depth-1]`. -/
def oneHot (labels : Tensor) (depth : ℕ) : Tensor :=
  ⟨labels.shape ++ [depth],
   labels.data.flatMap (fun v =>
     (List.range depth).map (fun j => if v = (j : ℚ) then (1 : ℚ) else 0))⟩

/-- `tf.cast(·, tf.float32)` on a boolean mask: true ↦ 1.0, false ↦ 0.0. -/
def castFloat (b : BTensor) : Tensor :=
  ⟨b.shape, b.data.map (fun x => if x then (1 : ℚ) else 0)⟩

/-- Modelled from the spec: `utils.len_to_mask` comes from the `delta.utils`
package, which is not under `src/`.  The spec calls its result "the length
mask" / "the 0/1 mask derived from label_length": for a tensor of sequence
lengths it returns the boolean mask whose entry at position `t` of row `i`
is true exactly when `t < length_i`, padded to the largest length. -/
def len_to_mask (length : Tensor) : BTensor :=
  let maxlen : ℕ := (length.data.map (fun v => v.num.toNat)).foldr max 0
  ⟨length.shape ++ [maxlen],
   length.data.flatMap (fun v =>
     (List.range maxlen).map (fun t => decide ((t : ℚ) < v)))⟩

/-- The `tf.losses.Reduction` enum; `cross_entropy`'s default is
`SUM_BY_NONZERO_WEIGHTS`.  The code only passes it through. -/
inductive Reduction where
  | SUM_BY_NONZERO_WEIGHTS
  | other (tag : ℕ)
deriving DecidableEq, Repr

/-- The `weights` argument accepted by `tf.losses.softmax_cross_entropy` as
the code uses it: either the boolean length mask or the Python scalar 1.0. -/
inductive TFWeights where
  | ofMask (m : BTensor)
  | ofScalar (x : ℚ)
deriving DecidableEq, Repr

/-- The type of the framework operator `tf.losses.softmax_cross_entropy`,
taking (onehot_labels, logits, weights, label_smoothing, reduction) to a
scalar loss. -/
abbrev SCEOp := Tensor → Tensor → TFWeights → ℚ → Reduction → ℚ

/-- `cross_entropy(logits, labels, input_length, label_length, smoothing,
reduction)` from `loss_utils.py`.  `input_length` is deleted on entry.
`onehot_labels` is `tf.cond(rank(logits) - rank(labels) == 1,
one_hot(labels, shape(logits)[-1]), labels)` (the rank arithmetic is int32,
modelled in `ℤ`); the weights are `utils.len_to_mask(label_length)` when
`label_length` is given and the scalar `1.0` otherwise; the result is the
framework's softmax cross-entropy of those arguments. -/
def cross_entropy (sce : SCEOp) (logits labels : Tensor)
    (input_length : Option Tensor) (label_length : Option Tensor)
    (smoothing : ℚ) (reduction : Reduction) : ℚ :=
  let _ := input_length
  let onehot_labels :=
    if (logits.rank : ℤ) - (labels.rank : ℤ) = 1 then
      oneHot labels logits.lastDim
    else
      labels
  let weights :=
    match label_length with
    | some ll => TFWeights.ofMask (len_to_mask ll)
    | none => TFWeights.ofScalar 1
  sce onehot_labels logits weights smoothing reduction

/-- The type of the framework operator `tf.nn.ctc_loss_v2`, taking
(labels, logits, label_length, logit_length, logits_time_major,
blank_index) to the per-example loss tensor. -/
abbrev CTCOp := Tensor → Tensor → Tensor → Tensor → Bool → ℤ → Tensor

/-- The `tf.cond(tf.equal(tf.rank(x), 1), x, tf.squeeze(x))` pattern used
on both length arguments of `ctc_lambda_loss`. -/
def condSqueeze (t : Tensor) : Tensor :=
  if t.rank = 1 then t else t.squeeze

/-- `ctc_lambda_loss(logits, labels, input_length, label_length,
blank_index)` from `loss_utils.py`.  Each length argument is squeezed
unless it already has rank 1; the four `tf.assert_rank` control
dependencies gate the call (a failed assertion raises, modelled as
`none`); otherwise the result is the framework's `ctc_loss_v2` with
`logits_time_major=False` and the given `blank_index`
(`batch_loss.set_shape([None])` only refines static shape information). -/
def ctc_lambda_loss (ctcOp : CTCOp) (logits labels : Tensor)
    (input_length label_length : Tensor) (blank_index : ℤ) :
    Option Tensor :=
  let ilen := condSqueeze input_length
  let olen := condSqueeze label_length
  if labels.rank = 2 ∧ logits.rank = 3 ∧ ilen.rank = 1 ∧ olen.rank = 1 then
    some (ctcOp labels logits olen ilen false blank_index)
  else
    none

/-- The type of the framework operator `tf.contrib.crf.crf_log_likelihood`,
taking (inputs, tag_indices, sequence_lengths, transition_params) to the
per-example log-likelihood vector paired with the transition-parameters
matrix. -/
abbrev CRFOp := Tensor → Tensor → Tensor → Tensor → List ℚ × Tensor

/-- `tf.reduce_mean` of a vector: sum divided by length. -/
def reduce_mean (xs : List ℚ) : ℚ := xs.sum / xs.length

/-- `crf_log_likelihood(tags_scores, labels, input_length, transitions)`
from `loss_utils.py`: delegate to the framework CRF operator, return
`(reduce_mean(-log_likelihood), transition_params)`. -/
def crf_log_likelihood (crfOp : CRFOp)
    (tags_scores labels input_length transitions : Tensor) : ℚ × Tensor :=
  let r := crfOp tags_scores labels input_length transitions
  (reduce_mean (r.1.map (fun x => -x)), r.2)

/-- The type of the framework operator `tf.contrib.seq2seq.sequence_loss`,
taking (logits, targets, weights) to a scalar loss. -/
abbrev SeqLossOp := Tensor → Tensor → Tensor → ℚ

/-- `mask_sequence_loss(logits, labels, input_length, label_length,
smoothing)` from `loss_utils.py`.  `smoothing` and `input_length` are
deleted on entry; the weights are the float cast of
`utils.len_to_mask(label_length)` when `label_length` is given and
`tf.ones_like(labels)` otherwise; the result is the framework's
`sequence_loss`. -/
def mask_sequence_loss (seqLoss : SeqLossOp) (logits labels : Tensor)
    (input_length : Option Tensor) (label_length : Option Tensor)
    (smoothing : ℚ) : ℚ :=
  let _ := smoothing
  let _ := input_length
  let weights :=
    match label_length with
    | some ll => castFloat (len_to_mask ll)
    | none => ones_like labels
  seqLoss logits labels weights

section Arcface

variable {K : Type} [LinearOrderedField K] [DecidableEq K]

/-- `tf.norm` (Euclidean) of a vector: the library square root of the sum
of squares.  `rsqrt` is the numeric library's square root. -/
def l2norm (rsqrt : K → K) {n : ℕ} (v : Fin n → K) : K :=
  rsqrt (∑ k, v k ^ 2)

/-- `arcface_loss(embedding, labels, out_num, weights, s, m, limit_to_pi)`
from `loss_utils.py`, over `B×E` embeddings and `E×N` weights
(`out_num = N`).  `rcos`, `rsin`, `rsqrt` are the numeric library's cosine,
sine and square root (`math.cos`, `math.sin`, `tf.sqrt`/`tf.norm`) and
`pi` is `math.pi`.  `store` is the value held by the graph variable
`arcface_loss/weights` that `tf.get_variable` creates (Xavier-initialized)
and returns when `weights is None`; when `weights` is supplied the store is
not consulted.  `tf.norm(…, axis=1)` row-normalizes the embedding,
`tf.norm(…, axis=0)` column-normalizes the weights, `cos_t` is their
matmul, `sin_t = sqrt(1 - cos_t²)`, and the output combines `s*cos_t` off
the one-hot mask of `labels` with `cos_mt_temp` on it, where
`cos_mt_temp` is `tf.where(cast(relu(cos_t - threshold), bool), cos_mt,
keep_val)` when `limit_to_pi` and `cos_mt` otherwise. -/
def arcface_loss (rcos rsin rsqrt : K → K) (pi : K) {B E N : ℕ}
    (store : Fin E → Fin N → K)
    (embedding : Fin B → Fin E → K) (labels : Fin B → Fin N)
    (weights : Option (Fin E → Fin N → K)) (s m : K)
    (limit_to_pi : Bool) : Fin B → Fin N → K :=
  let cos_m := rcos m
  let sin_m := rsin m
  let mm := sin_m * m
  let threshold := rcos (pi - m)
  let embedding_norm : Fin B → K := fun i => l2norm rsqrt (embedding i)
  let e : Fin B → Fin E → K := fun i k => embedding i k / embedding_norm i
  let w0 : Fin E → Fin N → K := weights.getD store
  let weights_norm : Fin N → K := fun j => l2norm rsqrt (fun k => w0 k j)
  let w : Fin E → Fin N → K := fun k j => w0 k j / weights_norm j
  let cos_t : Fin B → Fin N → K := fun i j => ∑ k, e i k * w k j
  let sin_t : Fin B → Fin N → K := fun i j => rsqrt (1 - cos_t i j ^ 2)
  let cos_mt : Fin B → Fin N → K := fun i j =>
    s * (cos_t i j * cos_m - sin_t i j * sin_m)
  let cos_mt_temp : Fin B → Fin N → K := fun i j =>
    if limit_to_pi then
      if max (cos_t i j - threshold) 0 ≠ 0 then cos_mt i j
      else s * (cos_t i j - mm)
    else cos_mt i j
  fun i j =>
    let mask : K := if labels i = j then 1 else 0
    s * cos_t i j * (1 - mask) + cos_mt_temp i j * mask

/-- The cosine similarity computed inside `arcface_loss`: the matmul of the
row-normalized embedding with the column-normalized weights. -/
def cosTheta (rsqrt : K → K) {B E N : ℕ}
    (embedding : Fin B → Fin E → K) (w0 : Fin E → Fin N → K)
    (i : Fin B) (j : Fin N) : K :=
  ∑ k, (embedding i k / l2norm rsqrt (embedding i)) *
    (w0 k j / l2norm rsqrt (fun t => w0 t j))

omit [DecidableEq K] in
/-- The nonzero-relu test `cast(relu(v), bool)` used for the margin
condition is exactly strict positivity. -/
lemma relu_cast_bool (v : K) : (max v 0 ≠ 0) ↔ 0 < v := by
  constructor
  · intro h
    by_contra hle
    push_neg at hle
    exact h (max_eq_right hle)
  · intro h
    rw [max_eq_left h.le]
    exact ne_of_gt h

/-- Closed form of `arcface_loss` at one output entry, in terms of
`cosTheta`: `s*(ct*cos m - sqrt(1-ct²)*sin m)` at the target class (or
`s*(ct - sin m * m)` when `limit_to_pi` and `ct ≤ cos(pi - m)`), and
`s*ct` elsewhere. -/
lemma arcface_loss_closed_form (rcos rsin rsqrt : K → K) (pi : K)
    {B E N : ℕ} (store : Fin E → Fin N → K)
    (embedding : Fin B → Fin E → K) (labels : Fin B → Fin N)
    (weights : Option (Fin E → Fin N → K)) (s m : K)
    (limit_to_pi : Bool) (i : Fin B) (j : Fin N) :
    arcface_loss rcos rsin rsqrt pi store embedding labels weights s m
        limit_to_pi i j =
      (let ct := cosTheta rsqrt embedding (weights.getD store) i j
       if labels i = j then
         if limit_to_pi = false ∨ rcos (pi - m) < ct then
           s * (ct * rcos m - rsqrt (1 - ct ^ 2) * rsin m)
         else
           s * (ct - rsin m * m)
       else s * ct) := by
  unfold arcface_loss cosTheta
  by_cases hj : labels i = j
  · cases limit_to_pi with
    | false => simp [hj]
    | true => simp [hj, relu_cast_bool, sub_pos]
  · simp [hj]

end Arcface

/-! ## Concrete inputs used by witnesses and counterexamples -/

/-- A 1×1 all-ones real matrix. -/
def ones11 : Fin 1 → Fin 1 → ℝ := fun _ _ => 1

/-- A 1×1 all-minus-ones real matrix. -/
def negOnes11 : Fin 1 → Fin 1 → ℝ := fun _ _ => -1

/-- The label vector assigning class 0 to the single example. -/
def label0 : Fin 1 → Fin 1 := fun _ => 0

/-- A 1×2 all-ones real matrix. -/
def ones12 : Fin 1 → Fin 2 → ℝ := fun _ _ => 1

/-- The label vector assigning class 0 (of 2) to the single example. -/
def label0of2 : Fin 1 → Fin 2 := fun _ => 0

/-- A 1×2 weights matrix with columns (1) and (-1). -/
def wPM : Fin 1 → Fin 2 → ℝ := fun _ j => if j = 0 then 1 else -1

/-- A CTC operator obeying the framework shape contract: one loss value
per batch element of the batch-major logits. -/
def ctcOpConst : CTCOp := fun _ lg _ _ _ _ =>
  Tensor.mk [lg.shape.headD 0] (List.replicate (lg.shape.headD 0) 0)

/-! ## Helper lemmas -/

/-- The Euclidean norm of a one-element vector is the absolute value of
its entry. -/
lemma l2norm_one (v : Fin 1 → ℝ) : l2norm Real.sqrt v = |v 0| := by
  rw [l2norm, Fin.sum_univ_one, Real.sqrt_sq_eq_abs]

/-- `cosTheta` over a single-dimensional embedding space reduces to a
product of two signs. -/
lemma cosTheta_single {N : ℕ} (e : Fin 1 → Fin 1 → ℝ)
    (w0 : Fin 1 → Fin N → ℝ) (j : Fin N) :
    cosTheta Real.sqrt e w0 0 j
      = e 0 0 / |e 0 0| * (w0 0 j / |w0 0 j|) := by
  rw [cosTheta, Fin.sum_univ_one, l2norm_one, l2norm_one]

/-- Summing the elementwise negation of a list negates its sum. -/
lemma sum_map_neg (l : List ℚ) : (l.map (fun x => -x)).sum = -l.sum := by
  induction l with
  | nil => simp
  | cons a t ih => simp [ih]; ring

/-! ## Claim theorems -/

/-- C3: `cross_entropy` one-hot encodes `labels` with depth the last
dimension of `logits` exactly when the rank of `logits` exceeds the rank
of `labels` by 1 (and uses `labels` unchanged otherwise), and returns the
framework softmax cross-entropy of `logits` against those labels with
`label_smoothing = smoothing`, weighted by the length mask of
`label_length` when it is given and by the constant weight 1.0 when it is
`None`. -/
theorem cross_entropy_formula (sce : SCEOp) (logits labels : Tensor)
    (input_length : Option Tensor) (ll : Tensor) (smoothing : ℚ)
    (reduction : Reduction) :
    (cross_entropy sce logits labels input_length (some ll) smoothing
        reduction
      = sce (if logits.rank = labels.rank + 1 then
               oneHot labels logits.lastDim
             else labels)
          logits (TFWeights.ofMask (len_to_mask ll)) smoothing reduction)
  ∧ (cross_entropy sce logits labels input_length none smoothing reduction
      = sce (if logits.rank = labels.rank + 1 then
               oneHot labels logits.lastDim
             else labels)
          logits (TFWeights.ofScalar 1) smoothing reduction) := by
  have hrank : ((logits.rank : ℤ) - (labels.rank : ℤ) = 1)
      ↔ logits.rank = labels.rank + 1 := by omega
  constructor <;> simp only [cross_entropy, hrank]

/-- C4: under the documented shapes (`logits` of rank 3 i.e. (B, T, D),
`labels` of rank 2 i.e. (B, T), and length arguments that are rank-1
after the conditional squeeze) all four rank assertions pass and
`ctc_lambda_loss` returns exactly the framework `ctc_loss_v2` applied
with batch-major logits (`logits_time_major = false`), the given
`blank_index`, and the conditionally squeezed length vectors; no CTC
computation happens locally (the result is whatever the framework
operator returns). -/
theorem ctc_lambda_loss_delegates (ctcOp : CTCOp) (logits labels : Tensor)
    (input_length label_length : Tensor) (blank_index : ℤ)
    (hlog : logits.rank = 3) (hlab : labels.rank = 2)
    (hil : (condSqueeze input_length).rank = 1)
    (hll : (condSqueeze label_length).rank = 1) :
    ctc_lambda_loss ctcOp logits labels input_length label_length
        blank_index
      = some (ctcOp labels logits (condSqueeze label_length)
          (condSqueeze input_length) false blank_index) := by
  unfold ctc_lambda_loss
  rw [if_pos ⟨hlab, hlog, hil, hll⟩]

/-- Witness for C4 at concrete tensors: logits of shape [2, 3, 4], labels
of shape [2, 3], an input-length of shape [2, 1] (squeezed to rank 1) and
a label-length of shape [2]. -/
theorem ctc_lambda_loss_delegates_witness :
    (Tensor.rank (Tensor.mk [2, 3, 4] (List.replicate 24 0)) = 3)
    ∧ (Tensor.rank (Tensor.mk [2, 3] (List.replicate 6 0)) = 2)
    ∧ ((condSqueeze (Tensor.mk [2, 1] [3, 3])).rank = 1)
    ∧ ((condSqueeze (Tensor.mk [2] [2, 2])).rank = 1)
    ∧ ctc_lambda_loss (fun _ lg _ _ _ _ =>
          Tensor.mk [lg.shape.headD 0] (List.replicate (lg.shape.headD 0) 0))
        (Tensor.mk [2, 3, 4] (List.replicate 24 0))
        (Tensor.mk [2, 3] (List.replicate 6 0))
        (Tensor.mk [2, 1] [3, 3]) (Tensor.mk [2] [2, 2]) 0
      = some (Tensor.mk [2] [0, 0]) :=
  ⟨rfl, rfl, rfl, rfl,
    (ctc_lambda_loss_delegates
        (fun _ lg _ _ _ _ =>
          Tensor.mk [lg.shape.headD 0] (List.replicate (lg.shape.headD 0) 0))
        (Tensor.mk [2, 3, 4] (List.replicate 24 0))
        (Tensor.mk [2, 3] (List.replicate 6 0))
        (Tensor.mk [2, 1] [3, 3]) (Tensor.mk [2] [2, 2]) 0
        rfl rfl rfl rfl).trans rfl⟩

/-- C5: `crf_log_likelihood` returns the pair whose first component is
the mean over the batch of the negated per-example log-likelihood
produced by the framework CRF operator, and whose second component is
the transition-parameters matrix produced by that operator. -/
theorem crf_log_likelihood_formula (crfOp : CRFOp)
    (tags_scores labels input_length transitions : Tensor) :
    ((crf_log_likelihood crfOp tags_scores labels input_length
        transitions).1
      = -((crfOp tags_scores labels input_length transitions).1.sum)
          / ((crfOp tags_scores labels input_length transitions).1.length))
  ∧ ((crf_log_likelihood crfOp tags_scores labels input_length
        transitions).2
      = (crfOp tags_scores labels input_length transitions).2) := by
  refine ⟨?_, rfl⟩
  simp only [crf_log_likelihood, reduce_mean]
  rw [sum_map_neg, List.length_map]

/-- C7: `mask_sequence_loss` is the framework sequence-to-sequence loss
with weights the float cast of the length mask of `label_length` when it
is given (every entry of that weight tensor is 0 or 1) and all-ones of
the shape of `labels` when it is `None`. -/
theorem mask_sequence_loss_weights (seqLoss : SeqLossOp)
    (logits labels : Tensor) (input_length : Option Tensor) (ll : Tensor)
    (smoothing : ℚ) :
    (mask_sequence_loss seqLoss logits labels input_length (some ll)
        smoothing
      = seqLoss logits labels (castFloat (len_to_mask ll)))
  ∧ (∀ x ∈ (castFloat (len_to_mask ll)).data, x = 0 ∨ x = 1)
  ∧ ((ones_like labels).shape = labels.shape)
  ∧ (mask_sequence_loss seqLoss logits labels input_length none smoothing
      = seqLoss logits labels (ones_like labels)) := by
  refine ⟨rfl, ?_, rfl, rfl⟩
  intro x hx
  simp only [castFloat, List.mem_map] at hx
  obtain ⟨b, _, hb⟩ := hx
  cases b <;> simp_all

/-- C8: `cross_entropy` deletes its `input_length` argument on entry, and
`mask_sequence_loss` deletes both `input_length` and `smoothing`; two
calls differing only in those arguments return equal losses. -/
theorem deleted_arguments_ignored (sce : SCEOp) (seqLoss : SeqLossOp)
    (logits labels : Tensor) (il il' : Option Tensor)
    (label_length : Option Tensor) (smoothing s₁ s₂ : ℚ)
    (reduction : Reduction) :
    (cross_entropy sce logits labels il label_length smoothing reduction
      = cross_entropy sce logits labels il' label_length smoothing
          reduction)
  ∧ (mask_sequence_loss seqLoss logits labels il label_length s₁
      = mask_sequence_loss seqLoss logits labels il' label_length s₂) :=
  ⟨rfl, rfl⟩

/-- C10: `ctc_lambda_loss` fails (the assertions stop it before the CTC
operator is reached) exactly when one of the rank preconditions is
violated — `labels` of rank 2, `logits` of rank 3, each length argument
of rank 1 after the conditional squeeze — and under those preconditions
it always produces a loss. -/
theorem ctc_lambda_loss_error_iff (ctcOp : CTCOp) (logits labels : Tensor)
    (input_length label_length : Tensor) (blank_index : ℤ) :
    (ctc_lambda_loss ctcOp logits labels input_length label_length
        blank_index = none
      ↔ ¬(labels.rank = 2 ∧ logits.rank = 3
            ∧ (condSqueeze input_length).rank = 1
            ∧ (condSqueeze label_length).rank = 1))
  ∧ ((labels.rank = 2 ∧ logits.rank = 3
        ∧ (condSqueeze input_length).rank = 1
        ∧ (condSqueeze label_length).rank = 1)
      → ∃ loss, ctc_lambda_loss ctcOp logits labels input_length
          label_length blank_index = some loss) := by
  constructor
  · unfold ctc_lambda_loss
    by_cases h : labels.rank = 2 ∧ logits.rank = 3
        ∧ (condSqueeze input_length).rank = 1
        ∧ (condSqueeze label_length).rank = 1
    · rw [if_pos h]
      simp [h]
    · rw [if_neg h]
      simp [h]
  · intro h
    unfold ctc_lambda_loss
    rw [if_pos h]
    exact ⟨_, rfl⟩

/-- Witness for C10 at concrete tensors satisfying the rank
preconditions: the loss is produced. -/
theorem ctc_lambda_loss_error_iff_witness :
    (Tensor.rank (Tensor.mk [2, 3] [0, 0, 0, 0, 0, 0]) = 2
      ∧ Tensor.rank (Tensor.mk [2, 3, 4] (List.replicate 24 0)) = 3
      ∧ (condSqueeze (Tensor.mk [2, 1] [3, 3])).rank = 1
      ∧ (condSqueeze (Tensor.mk [2] [2, 2])).rank = 1)
    ∧ ∃ loss, ctc_lambda_loss (fun _ _ _ _ _ _ => Tensor.mk [2] [1, 1])
        (Tensor.mk [2, 3, 4] (List.replicate 24 0))
        (Tensor.mk [2, 3] [0, 0, 0, 0, 0, 0])
        (Tensor.mk [2, 1] [3, 3]) (Tensor.mk [2] [2, 2]) 0 = some loss :=
  ⟨⟨rfl, rfl, rfl, rfl⟩,
   (ctc_lambda_loss_error_iff (fun _ _ _ _ _ _ => Tensor.mk [2] [1, 1])
      (Tensor.mk [2, 3, 4] (List.replicate 24 0))
      (Tensor.mk [2, 3] [0, 0, 0, 0, 0, 0])
      (Tensor.mk [2, 1] [3, 3]) (Tensor.mk [2] [2, 2]) 0).2
     ⟨rfl, rfl, rfl, rfl⟩⟩

/-- C1 (counterexample): `arcface_loss` with `weights=None` reads the
graph variable created by `tf.get_variable`: two calls with identical
explicit arguments but different values of that hidden variable return
different results (here 64 versus -64 at the single output entry). -/
theorem arcface_loss_hidden_state_cex :
    arcface_loss Real.cos Real.sin Real.sqrt Real.pi ones11 ones11 label0
        none 64 0 true
      ≠ arcface_loss Real.cos Real.sin Real.sqrt Real.pi negOnes11 ones11
          label0 none 64 0 true := by
  intro h
  have h00 := congrFun (congrFun h 0) 0
  rw [arcface_loss_closed_form, arcface_loss_closed_form] at h00
  have hctL : cosTheta Real.sqrt ones11 ((none : Option _).getD ones11)
      0 0 = 1 := by
    rw [cosTheta_single]
    norm_num [ones11]
  have hctR : cosTheta Real.sqrt ones11 ((none : Option _).getD negOnes11)
      0 0 = -1 := by
    rw [cosTheta_single]
    norm_num [ones11, negOnes11]
  rw [hctL, hctR] at h00
  norm_num [label0, Real.cos_pi, Real.cos_zero, Real.sin_zero,
    Real.sqrt_zero] at h00

/-- C1 (amended): every loss function is a deterministic function of its
explicit arguments together with the framework state; in particular
`arcface_loss` with an explicitly supplied `weights` matrix never
consults the variable store. -/
theorem arcface_loss_store_independent {B E N : ℕ}
    (store₁ store₂ : Fin E → Fin N → ℝ) (embedding : Fin B → Fin E → ℝ)
    (labels : Fin B → Fin N) (w : Fin E → Fin N → ℝ) (s m : ℝ)
    (limit_to_pi : Bool) :
    arcface_loss Real.cos Real.sin Real.sqrt Real.pi store₁ embedding
        labels (some w) s m limit_to_pi
      = arcface_loss Real.cos Real.sin Real.sqrt Real.pi store₂ embedding
          labels (some w) s m limit_to_pi := rfl

/-- C2 (counterexample): `arcface_loss` does not return a scalar or one
value per batch element: with two classes it returns two distinct values
(64 and -64) for the same batch element. -/
theorem arcface_loss_not_per_example_cex :
    arcface_loss Real.cos Real.sin Real.sqrt Real.pi ones12 ones11
        label0of2 (some wPM) 64 0 true 0 0
      ≠ arcface_loss Real.cos Real.sin Real.sqrt Real.pi ones12 ones11
          label0of2 (some wPM) 64 0 true 0 1 := by
  rw [arcface_loss_closed_form, arcface_loss_closed_form]
  have hct0 : cosTheta Real.sqrt ones11 ((some wPM).getD ones12) 0 0
      = 1 := by
    rw [cosTheta_single]
    norm_num [ones11, wPM]
  have hct1 : cosTheta Real.sqrt ones11 ((some wPM).getD ones12) 0 1
      = -1 := by
    rw [cosTheta_single]
    norm_num [ones11, wPM]
  rw [hct0, hct1]
  norm_num [label0of2, Real.cos_pi, Real.cos_zero, Real.sin_zero,
    Real.sqrt_zero]

/-- C2 (amended): `cross_entropy` and `mask_sequence_loss` return
scalars and `crf_log_likelihood` a scalar paired with the transition
matrix (their result types); for any framework CTC operator obeying the
documented contract — one loss per element of the batch-major logits —
`ctc_lambda_loss` under its rank preconditions returns a per-example
loss vector of length equal to the batch size. -/
theorem ctc_per_example_length (ctcOp : CTCOp)
    (hop : ∀ (labels logits olen ilen : Tensor) (tm : Bool) (bi : ℤ),
      (ctcOp labels logits olen ilen tm bi).shape
        = [logits.shape.headD 0])
    (logits labels input_length label_length : Tensor) (blank_index : ℤ)
    (hlog : logits.rank = 3) (hlab : labels.rank = 2)
    (hil : (condSqueeze input_length).rank = 1)
    (hll : (condSqueeze label_length).rank = 1) :
    ∃ loss, ctc_lambda_loss ctcOp logits labels input_length label_length
        blank_index = some loss
      ∧ loss.shape = [logits.shape.headD 0] := by
  unfold ctc_lambda_loss
  rw [if_pos ⟨hlab, hlog, hil, hll⟩]
  exact ⟨_, rfl, hop _ _ _ _ _ _⟩

/-- Witness for the amended C2: a concrete shape-respecting CTC operator
and concrete rank-valid tensors; the loss vector has the batch length. -/
theorem ctc_per_example_length_witness :
    (∀ (labels logits olen ilen : Tensor) (tm : Bool) (bi : ℤ),
      (ctcOpConst labels logits olen ilen tm bi).shape
        = [logits.shape.headD 0])
    ∧ Tensor.rank (Tensor.mk [2, 3, 4] (List.replicate 24 0)) = 3
    ∧ Tensor.rank (Tensor.mk [2, 3] (List.replicate 6 0)) = 2
    ∧ (condSqueeze (Tensor.mk [2, 1] [3, 3])).rank = 1
    ∧ (condSqueeze (Tensor.mk [2] [2, 2])).rank = 1
    ∧ ∃ loss, ctc_lambda_loss ctcOpConst
          (Tensor.mk [2, 3, 4] (List.replicate 24 0))
          (Tensor.mk [2, 3] (List.replicate 6 0))
          (Tensor.mk [2, 1] [3, 3]) (Tensor.mk [2] [2, 2]) 0 = some loss
        ∧ loss.shape
          = [(Tensor.mk [2, 3, 4] (List.replicate 24 0)).shape.headD 0] :=
  ⟨fun _ _ _ _ _ _ => rfl, rfl, rfl, rfl, rfl,
   ctc_per_example_length ctcOpConst (fun _ _ _ _ _ _ => rfl)
     (Tensor.mk [2, 3, 4] (List.replicate 24 0))
     (Tensor.mk [2, 3] (List.replicate 6 0))
     (Tensor.mk [2, 1] [3, 3]) (Tensor.mk [2] [2, 2]) 0 rfl rfl rfl rfl⟩

/-- C6: at every output entry, `arcface_loss` equals the ArcFace
angular-margin formula: with `ct` the cosine similarity of the
row-normalized embedding and the column-normalized weights, the output
is `s*ct` at non-target classes; at the target class it is
`s*(ct*cos m - sin(arccos ct)*sin m)` (i.e. `s*cos(θ+m)`) when
`limit_to_pi` is false or `ct > cos(π - m)`, and `s*(ct - m*sin m)`
otherwise. -/
theorem arcface_loss_margin_formula {B E N : ℕ}
    (store : Fin E → Fin N → ℝ) (embedding : Fin B → Fin E → ℝ)
    (labels : Fin B → Fin N) (weights : Option (Fin E → Fin N → ℝ))
    (s m : ℝ) (limit_to_pi : Bool) (i : Fin B) (j : Fin N) :
    arcface_loss Real.cos Real.sin Real.sqrt Real.pi store embedding
        labels weights s m limit_to_pi i j
      = (let ct := cosTheta Real.sqrt embedding (weights.getD store) i j
         if labels i = j then
           if limit_to_pi = false ∨ Real.cos (Real.pi - m) < ct then
             s * (ct * Real.cos m - Real.sin (Real.arccos ct) * Real.sin m)
           else
             s * (ct - m * Real.sin m)
         else s * ct) := by
  rw [arcface_loss_closed_form]
  simp only [Real.sin_arccos, mul_comm m (Real.sin m)]

/-- Scaling a vector by a positive constant does not change its
normalization. -/
lemma normalize_smul {n : ℕ} (c : ℝ) (hc : 0 < c) (x : Fin n → ℝ)
    (k : Fin n) :
    (c * x k) / l2norm Real.sqrt (fun t => c * x t)
      = x k / l2norm Real.sqrt x := by
  unfold l2norm
  have hsum : ∑ t, (c * x t) ^ 2 = c ^ 2 * ∑ t, x t ^ 2 := by
    rw [Finset.mul_sum]
    refine Finset.sum_congr rfl fun t _ => ?_
    ring
  rw [hsum, Real.sqrt_mul (sq_nonneg c), Real.sqrt_sq_eq_abs,
    abs_of_pos hc, mul_div_mul_left _ _ (ne_of_gt hc)]

/-- `cosTheta` is invariant under positive scaling of the embedding. -/
lemma cosTheta_scale_embedding {B E N : ℕ} (c : ℝ) (hc : 0 < c)
    (embedding : Fin B → Fin E → ℝ) (w0 : Fin E → Fin N → ℝ)
    (i : Fin B) (j : Fin N) :
    cosTheta Real.sqrt (fun i k => c * embedding i k) w0 i j
      = cosTheta Real.sqrt embedding w0 i j := by
  unfold cosTheta
  refine Finset.sum_congr rfl fun k _ => ?_
  rw [normalize_smul c hc (embedding i) k]

/-- `cosTheta` is invariant under positive scaling of a single weights
column. -/
lemma cosTheta_scale_column {B E N : ℕ} (c : ℝ) (hc : 0 < c)
    (embedding : Fin B → Fin E → ℝ) (w : Fin E → Fin N → ℝ)
    (j₀ : Fin N) (i : Fin B) (j : Fin N) :
    cosTheta Real.sqrt embedding
        (fun k j => if j = j₀ then c * w k j else w k j) i j
      = cosTheta Real.sqrt embedding w i j := by
  unfold cosTheta
  by_cases hjj : j = j₀
  · subst hjj
    refine Finset.sum_congr rfl fun k _ => ?_
    simp only [eq_self_iff_true, if_true]
    rw [normalize_smul c hc (fun t => w t j) k]
  · simp only [if_neg hjj]

/-- C9: `arcface_loss` is scale-invariant: replacing the embedding by
`c * embedding` for a scalar `c > 0`, or scaling any single column of a
supplied weights matrix by `c`, leaves the output unchanged, because the
embedding rows and the weight columns are normalized before the cosine
matmul. -/
theorem arcface_loss_scale_invariant {B E N : ℕ}
    (store : Fin E → Fin N → ℝ) (embedding : Fin B → Fin E → ℝ)
    (labels : Fin B → Fin N) (weights : Option (Fin E → Fin N → ℝ))
    (w : Fin E → Fin N → ℝ) (j₀ : Fin N) (s m c : ℝ)
    (limit_to_pi : Bool) (hc : 0 < c) :
    (arcface_loss Real.cos Real.sin Real.sqrt Real.pi store
        (fun i k => c * embedding i k) labels weights s m limit_to_pi
      = arcface_loss Real.cos Real.sin Real.sqrt Real.pi store embedding
          labels weights s m limit_to_pi)
    ∧ (arcface_loss Real.cos Real.sin Real.sqrt Real.pi store embedding
        labels (some (fun k j => if j = j₀ then c * w k j else w k j))
        s m limit_to_pi
      = arcface_loss Real.cos Real.sin Real.sqrt Real.pi store embedding
          labels (some w) s m limit_to_pi) := by
  constructor
  · funext i j
    rw [arcface_loss_closed_form, arcface_loss_closed_form,
      cosTheta_scale_embedding c hc]
  · funext i j
    rw [arcface_loss_closed_form, arcface_loss_closed_form]
    simp only [Option.getD_some]
    rw [cosTheta_scale_column c hc]

/-- Witness for C9 at `c = 2` and concrete 1×1 inputs. -/
theorem arcface_loss_scale_invariant_witness :
    (0 : ℝ) < 2
    ∧ ((arcface_loss Real.cos Real.sin Real.sqrt Real.pi ones11
          (fun i k => 2 * ones11 i k) label0 none 64 (1/2) true
        = arcface_loss Real.cos Real.sin Real.sqrt Real.pi ones11 ones11
            label0 none 64 (1/2) true)
      ∧ (arcface_loss Real.cos Real.sin Real.sqrt Real.pi ones11 ones11
          label0
          (some (fun k j => if j = (0 : Fin 1) then 2 * ones11 k j
                            else ones11 k j))
          64 (1/2) true
        = arcface_loss Real.cos Real.sin Real.sqrt Real.pi ones11 ones11
            label0 (some ones11) 64 (1/2) true)) :=
  ⟨by norm_num,
   arcface_loss_scale_invariant ones11 ones11 label0 none ones11 0 64
     (1/2) 2 true (by norm_num)⟩

end LossUtils
